import Mathlib

/-!
Verification of the AUTOEXEC.BAT composition subsystem
(`src/shell/autoexec.cpp` of dosbox-staging-pinhack).

The C++ file assembles a synthetic `AUTOEXEC.BAT` boot script from three
ordered line buffers (generated-before, config-file, generated-after), an
echo-off flag and an ordered variable mapping, renders them to a UTF-8
string, and republishes a transcoded copy whenever the guest code page
changes.  We embed the state as explicit structures, strings as `List Char`
(`Str`), and each C++ function as a Lean function over that state.
-/

namespace Autoexec

/-- Strings are modelled as lists of characters. -/
abbrev Str := List Char

/-! ### Character-level helpers

These correspond to helpers from `string_utils.h` / `<cctype>`, which are
not part of the single source file under verification.
-/

/-- Modelled from the spec: ASCII lower-casing, as used by `lowcase` for the
case-insensitive "echo off" detection ("case-insensitive \"echo\" ...
\"off\""). -/
def toLowerC (c : Char) : Char :=
  if 'A' ≤ c ∧ c ≤ 'Z' then Char.ofNat (c.toNat + 32) else c

/-- Modelled from the spec: ASCII upper-casing, as used by `upcase`
("normalizes name to uppercase"). -/
def toUpperC (c : Char) : Char :=
  if 'a' ≤ c ∧ c ≤ 'z' then Char.ofNat (c.toNat - 32) else c

/-- Modelled from the spec: C `isspace` in the default locale — space and
the five standard control whitespace characters (TAB, LF, VT, FF, CR). -/
def is_space_char (c : Char) : Bool :=
  c = ' ' || c = '\t' || c = '\n' ||
  c.toNat = 11 || c.toNat = 12 || c = '\r'

/-- Modelled from the spec: `is_printable_ascii`, true exactly for the
printable ASCII range 0x20..0x7E. -/
def is_printable_ascii (c : Char) : Bool :=
  0x20 ≤ c.toNat && c.toNat ≤ 0x7e

/-- Modelled from the spec: `trim`, which strips leading and trailing
whitespace from a line ("trims each line"). -/
def trim (s : Str) : Str :=
  ((s.dropWhile is_space_char).reverse.dropWhile is_space_char).reverse

/-- Modelled from the spec: `ends_with suffixPart s` — does `s` end with
`suffixPart`?  (`ends_with` of `string_utils.h`.) -/
def ends_with (s suffixPart : Str) : Bool :=
  decide (s.drop (s.length - suffixPart.length) = suffixPart)

/-- Modelled from the spec: `upcase` applied to a whole string. -/
def upcaseStr (s : Str) : Str := s.map toUpperC

/-! ### Composer state

The C++ file keeps this state in file-level globals:
`autoexec_has_echo_off`, `autoexec_variables`
(a `std::map<std::string, std::string>`, i.e. an association list kept
sorted by key in lexicographic order), and
`autoexec_lines : std::map<Location, std::list<std::string>>`.  The latter
map is keyed by the three-valued `Location` enum, so it is equivalent to
three lists (a missing map entry is an empty list, and the rendering loop
skips empty lists explicitly).
-/

/-- The `Location` enum of autoexec.cpp. -/
inductive Location where
  | GeneratedBeforeAutoexec
  | ConfigFileAutoexec
  | GeneratedAfterAutoexec
deriving DecidableEq, Repr

/-- The script-composer state: the file-level globals of autoexec.cpp that
feed `create_autoexec_bat_utf8`.  `autoexec_variables` models the
`std::map` as a key-sorted association list. -/
structure AutoexecState where
  autoexec_has_echo_off : Bool := false
  autoexec_variables : List (Str × Str) := []
  linesGeneratedBefore : List Str := []
  linesConfigFile : List Str := []
  linesGeneratedAfter : List Str := []
deriving DecidableEq, Repr

/-! ### Rendering (`create_autoexec_bat_utf8`)

The C++ function builds the output string through `push_string`, which
always appends the line's characters followed by CR LF (its empty-line
special case is the same as appending zero characters and CR LF).  We
therefore build the output as the list of emitted lines and join each line
with CR LF at the end.  The C++ `out.empty()` test is equivalent to the
emitted-line list being empty, because every push contributes at least the
two terminator bytes.
-/

/-- DOS line terminator, CR then LF (`push_new_line`). -/
def strCRLF : Str := ['\r', '\n']

/-- The banner for generated sections: `:: ` followed by the message
registered by `AddMessages` under key `AUTOEXEC_BAT_AUTOGENERATED`. -/
def comment_generated : Str := (":: autogenerated").toList

/-- The banner for the config-file section: `:: ` followed by the message
registered by `AddMessages` under key `AUTOEXEC_BAT_CONFIG_SECTION`. -/
def comment_config_section : Str := (":: from [autoexec] section").toList

/-- Accumulator of the rendering loop over the three line buffers: the
lines emitted so far together with the `prints_generated` /
`prints_config_section` flags. -/
structure RenderAcc where
  out : List Str
  prints_generated : Bool
  prints_config_section : Bool
deriving DecidableEq, Repr

/-- One iteration of the `for (const auto& [source, list_lines] :
autoexec_lines)` loop of `create_autoexec_bat_utf8`: skip an empty buffer,
emit the appropriate banner when the section kind changes, then emit the
buffer's lines. -/
def render_section (acc : RenderAcc) (source : Location) (list_lines : List Str) :
    RenderAcc :=
  if list_lines.isEmpty then acc
  else
    let acc' :=
      match source with
      | .GeneratedBeforeAutoexec | .GeneratedAfterAutoexec =>
        if acc.prints_generated then acc
        else
          { out := acc.out ++ (if acc.out.isEmpty then [] else [[]]) ++
              [comment_generated, []],
            prints_generated := true,
            prints_config_section := false }
      | .ConfigFileAutoexec =>
        if acc.prints_config_section then acc
        else
          { out := acc.out ++ (if acc.out.isEmpty then [] else [[]]) ++
              [comment_config_section, []],
            prints_generated := false,
            prints_config_section := true }
    { acc' with out := acc'.out ++ list_lines }

/-- The `@SET NAME=VALUE` line for one variable. -/
def set_line (nv : Str × Str) : Str :=
  ("@SET ").toList ++ nv.1 ++ ['='] ++ nv.2

/-- The header part of `create_autoexec_bat_utf8` (the `ECHO OFF` /
`SET variable=value` block emitted before the three line buffers). -/
def header_lines (st : AutoexecState) : List Str :=
  (if st.autoexec_has_echo_off || !st.autoexec_variables.isEmpty
   then [comment_generated] else []) ++
  (if st.autoexec_has_echo_off then [[], ("@ECHO OFF").toList] else []) ++
  (if !st.autoexec_variables.isEmpty
   then [] :: st.autoexec_variables.map set_line else []) ++
  (if st.autoexec_has_echo_off || !st.autoexec_variables.isEmpty
   then [[]] else [])

/-- All lines emitted by `create_autoexec_bat_utf8`, in order: the header
block, then the three buffers walked in `Location` enum order (the
iteration order of the `std::map` keyed by `Location`). -/
def render_lines (st : AutoexecState) : List Str :=
  (render_section
    (render_section
      (render_section
        { out := header_lines st,
          prints_generated :=
            st.autoexec_has_echo_off || !st.autoexec_variables.isEmpty,
          prints_config_section := false }
        .GeneratedBeforeAutoexec st.linesGeneratedBefore)
      .ConfigFileAutoexec st.linesConfigFile)
    .GeneratedAfterAutoexec st.linesGeneratedAfter).out

/-- The rendered UTF-8 script: every emitted line followed by CR LF. -/
def create_autoexec_bat_utf8 (st : AutoexecState) : Str :=
  (render_lines st).foldr (fun l acc => l ++ strCRLF ++ acc) []

/-! ### Line insertion (`AddCommandBefore` / `AddAutoExecLine` /
`AddCommandAfter`)

Each of the three `AutoExecModule` helpers appends one line to the
`autoexec_lines` entry of its `Location`.
-/

/-- Append a line to the `GeneratedBeforeAutoexec` buffer
(`AddCommandBefore`). -/
def AddCommandBefore (st : AutoexecState) (line : Str) : AutoexecState :=
  { st with linesGeneratedBefore := st.linesGeneratedBefore ++ [line] }

/-- Append a line to the `ConfigFileAutoexec` buffer (`AddAutoExecLine`). -/
def AddAutoExecLine (st : AutoexecState) (line : Str) : AutoexecState :=
  { st with linesConfigFile := st.linesConfigFile ++ [line] }

/-- Append a line to the `GeneratedAfterAutoexec` buffer
(`AddCommandAfter`). -/
def AddCommandAfter (st : AutoexecState) (line : Str) : AutoexecState :=
  { st with linesGeneratedAfter := st.linesGeneratedAfter ++ [line] }

/-- One insertion call, tagged by which of the three helpers was called. -/
inductive AddCall where
  | before (line : Str)
  | autoexecLine (line : Str)
  | after (line : Str)
deriving DecidableEq, Repr

/-- Apply one tagged insertion call to the composer state. -/
def applyCall (st : AutoexecState) : AddCall → AutoexecState
  | .before l => AddCommandBefore st l
  | .autoexecLine l => AddAutoExecLine st l
  | .after l => AddCommandAfter st l

/-- Apply a whole interleaved sequence of insertion calls. -/
def applyCalls (st : AutoexecState) (calls : List AddCall) : AutoexecState :=
  calls.foldl applyCall st

/-- The lines a call sequence sends to the `GeneratedBeforeAutoexec`
buffer, in call order. -/
def callsBefore (calls : List AddCall) : List Str :=
  calls.filterMap fun c => match c with | .before l => some l | _ => none

/-- The lines a call sequence sends to the `ConfigFileAutoexec` buffer, in
call order. -/
def callsUser (calls : List AddCall) : List Str :=
  calls.filterMap fun c => match c with | .autoexecLine l => some l | _ => none

/-- The lines a call sequence sends to the `GeneratedAfterAutoexec`
buffer, in call order. -/
def callsAfter (calls : List AddCall) : List Str :=
  calls.filterMap fun c => match c with | .after l => some l | _ => none

/-! ### Variable mapping (`AUTOEXEC_SetVariable`)

`autoexec_variables` is a `std::map<std::string, std::string>`: an ordered
mapping whose keys are kept in ascending lexicographic string order.  We
model it as an association list sorted by key, with `std::map`-style
insert-or-overwrite and erase.
-/

/-- Insertion into the key-sorted association list modelling
`std::map::operator[] =`: place the new key at its ordered position,
overwriting an existing equal key. -/
def mapInsert (k : Str) (v : Str) : List (Str × Str) → List (Str × Str)
  | [] => [(k, v)]
  | (k', v') :: rest =>
    if k < k' then (k, v) :: (k', v') :: rest
    else if k = k' then (k, v) :: rest
    else (k', v') :: mapInsert k v rest

/-- Erasure from the association list modelling `std::map::erase(key)`:
remove the entry with the given key, if present. -/
def mapErase (k : Str) : List (Str × Str) → List (Str × Str)
  | [] => []
  | (k', v') :: rest =>
    if k = k' then rest else (k', v') :: mapErase k rest

/-- Function `AUTOEXEC_SetVariable`, restricted to its effect on the stored
variable mapping (the propagation into a live shell environment is an
external side effect): upcase the name, then erase on empty value,
insert/overwrite otherwise. -/
def AUTOEXEC_SetVariable (vars : List (Str × Str)) (name value : Str) :
    List (Str × Str) :=
  let name_upcase := upcaseStr name
  if value.isEmpty then mapErase name_upcase vars
  else mapInsert name_upcase value vars

/-- Error messages of the two `E_Exit` diagnostics in
`AUTOEXEC_SetVariable`. -/
def msg_name_not_printable : String :=
  "AUTOEXEC: Variable name is not a printable ASCII"

/-- Error message of the second `E_Exit` diagnostic. -/
def msg_value_not_printable : String :=
  "AUTOEXEC: Variable value is not a printable ASCII"

/-- Function `AUTOEXEC_SetVariable` with its `#if C_DEBUG` guard made explicit:
when `c_debug` is true and the name or value contains a character outside
printable ASCII, the function hard-aborts via `E_Exit` (modelled as
`Except.error` carrying the diagnostic); otherwise it behaves as
`AUTOEXEC_SetVariable`. -/
def AUTOEXEC_SetVariable_checked (c_debug : Bool) (vars : List (Str × Str))
    (name value : Str) : Except String (List (Str × Str)) :=
  if c_debug && !(name.all is_printable_ascii) then
    .error msg_name_not_printable
  else if c_debug && !(value.all is_printable_ascii) then
    .error msg_value_not_printable
  else
    .ok (AUTOEXEC_SetVariable vars name value)

/-- Apply a sequence of `(name, value)` pairs through
`AUTOEXEC_SetVariable`. -/
def applySetVars (vars : List (Str × Str)) (ops : List (Str × Str)) :
    List (Str × Str) :=
  ops.foldl (fun m nv => AUTOEXEC_SetVariable m nv.1 nv.2) vars

/-- Well-formedness of the `std::map` model: keys strictly ascending in
lexicographic order. -/
def VarsSorted (vars : List (Str × Str)) : Prop :=
  List.Pairwise (fun a b : Str × Str => a.1 < b.1) vars

/-! ### Config-file loading (`AutoExecModule::ProcessConfigFile`) -/

/-- The `check_echo_off` lambda of `ProcessConfigFile`: empty line fails;
strip one leading `@`; fail if fewer than 8 characters remain; lowercase;
require the first four characters to be `echo` and the last three `off`;
require every character strictly between them to be whitespace. -/
def check_echo_off (line : Str) : Bool :=
  if line.isEmpty then false
  else
    let tmp := if line.head? = some '@' then line.drop 1 else line
    if tmp.length < 8 then false
    else
      let tmp := tmp.map toLowerC
      if ¬ (tmp.take 4 = ("echo").toList) then false
      else if ¬ (ends_with tmp (("off").toList) = true) then false
      else ((tmp.drop 4).take (tmp.length - 7)).all is_space_char

/-- Modelled from the spec: one step of the `std::getline` reading loop,
accumulating the current line's characters (in reverse) until LF or end of
input; a line ended by LF is followed by further lines only when input
remains after the LF, so a trailing LF does not produce an extra empty
line. -/
def split_lines_go (cur : Str) : Str → List Str
  | [] => [cur.reverse]
  | c :: rest =>
    if c = '\n' then
      match rest with
      | [] => [cur.reverse]
      | _ => cur.reverse :: split_lines_go [] rest
    else
      split_lines_go (c :: cur) rest

/-- Modelled from the spec: the `std::getline` splitting of the raw
section text into lines ("splits rawText on line boundaries"); empty
input yields no lines at all. -/
def split_lines (s : Str) : List Str :=
  match s with
  | [] => []
  | _ => split_lines_go [] s

/-- Method `AutoExecModule::ProcessConfigFile`, restricted to its effect on the
composer state (the log message is an external side effect): if the
section data is empty do nothing; otherwise read the data line by line,
trim each line, let a first line matching `check_echo_off` set the
echo-off flag instead of being added, and add every other line via
`AddAutoExecLine`. -/
def ProcessConfigFile (st : AutoexecState) (data : Str) : AutoexecState :=
  if data.isEmpty then st
  else
    match (split_lines data).map trim with
    | [] => st
    | first :: rest =>
      let st' :=
        if check_echo_off first then
          { st with autoexec_has_echo_off := true }
        else
          AddAutoExecLine st first
      rest.foldl AddAutoExecLine st'

/-! ### Publication (`create_autoexec_bat_dos`, `AUTOEXEC_RegisterFile`,
`AUTOEXEC_NotifyNewCodePage`)

The publish-side globals are `autoexec_bat_utf8` (the cached rendered
UTF-8 blob), `is_vfile_registered`, `vfile_code_page`, and the byte
content of the registered virtual file `Z:\AUTOEXEC.BAT` (held by the
external VFILE layer; we track it as `vfile_content`).  The external
transcoder `utf8_to_dos` is passed in as a function parameter
`transcode : Str → Nat → Str` (input UTF-8 text and code page to output
bytes).
-/

/-- The publish-side state of autoexec.cpp. -/
structure PublishState where
  autoexec_bat_utf8 : Str := []
  is_vfile_registered : Bool := false
  vfile_code_page : Nat := 0
  vfile_content : Str := []
deriving DecidableEq, Repr

/-- Function `create_autoexec_bat_dos`: transcode the given UTF-8 text to the given
code page, register or update the virtual file with the result, and cache
the code page. -/
def create_autoexec_bat_dos (transcode : Str → Nat → Str) (st : PublishState)
    (input_utf8 : Str) (code_page : Nat) : PublishState :=
  let autoexec_bat_dos := transcode input_utf8 code_page
  { st with
    vfile_content := autoexec_bat_dos,
    is_vfile_registered := true,
    vfile_code_page := code_page }

/-- Function `AUTOEXEC_RegisterFile`: render the composer state to UTF-8, cache the
blob, and publish it transcoded to the active code page. -/
def AUTOEXEC_RegisterFile (transcode : Str → Nat → Str)
    (composer : AutoexecState) (code_page : Nat) (st : PublishState) :
    PublishState :=
  let utf8 := create_autoexec_bat_utf8 composer
  create_autoexec_bat_dos transcode { st with autoexec_bat_utf8 := utf8 }
    utf8 code_page

/-- Function `AUTOEXEC_NotifyNewCodePage`: do nothing during shutdown or before the
virtual file exists; do nothing when the active code page equals the
cached one; otherwise republish the cached UTF-8 blob transcoded to the
new code page. -/
def AUTOEXEC_NotifyNewCodePage (transcode : Str → Nat → Str)
    (shutdown_requested : Bool) (code_page : Nat) (st : PublishState) :
    PublishState :=
  if shutdown_requested || !st.is_vfile_registered then st
  else if code_page = st.vfile_code_page then st
  else create_autoexec_bat_dos transcode st st.autoexec_bat_utf8 code_page

/-! ### Specification-side definitions and proof auxiliaries -/

/-- The spec's wording of the special first-line pattern, as a predicate to
be compared with the source's `check_echo_off`: an optional leading `@`,
then case-insensitively `echo`, then at least one whitespace character
(arbitrary interior whitespace), then `off`, with no other trailing
characters. -/
def echo_off_spec (line : Str) : Prop :=
  ∃ mid : Str, mid ≠ [] ∧ (∀ c ∈ mid, is_space_char c = true) ∧
    (line.map toLowerC = ("echo").toList ++ mid ++ ("off").toList ∨
     ∃ body : Str, line = '@' :: body ∧
       body.map toLowerC = ("echo").toList ++ mid ++ ("off").toList)

/-- Lookup in the association-list model of the variable map (the value
`std::map::find` would return). -/
def mapFind (k : Str) : List (Str × Str) → Option Str
  | [] => none
  | (k', v') :: rest => if k = k' then some v' else mapFind k rest

/-! ## Theorems -/

/-- Claim C9: rendering a composer whose echo-off flag is unset, whose
variable mapping is empty and whose three Origin buffers are all empty
yields the empty string. -/
theorem render_all_empty_composer_is_empty :
    create_autoexec_bat_utf8
      { autoexec_has_echo_off := false,
        autoexec_variables := [],
        linesGeneratedBefore := [],
        linesConfigFile := [],
        linesGeneratedAfter := [] } = [] := by decide

/-- Claim C7: with the echo-off flag set and everything else empty, the
render is exactly four lines — the generated banner, a blank line,
`@ECHO OFF`, and a blank line — each terminated by CR then LF. -/
theorem render_echo_off_only :
    render_lines
      { autoexec_has_echo_off := true,
        autoexec_variables := [],
        linesGeneratedBefore := [],
        linesConfigFile := [],
        linesGeneratedAfter := [] } =
      [comment_generated, [], ("@ECHO OFF").toList, []] ∧
    create_autoexec_bat_utf8
      { autoexec_has_echo_off := true,
        autoexec_variables := [],
        linesGeneratedBefore := [],
        linesConfigFile := [],
        linesGeneratedAfter := [] } =
      (":: autogenerated\r\n\r\n@ECHO OFF\r\n\r\n").toList := by
  exact ⟨by decide, by decide⟩

/-- Claim C5: a code-page-change notification is a no-op — the publish
state, including the published bytes and the cached code page, is
unchanged, for every transcoder — whenever no script has ever been
published (the virtual file is not registered) or the new code page
equals the cached one. -/
theorem notify_new_code_page_noop (transcode : Str → Nat → Str)
    (shutdown_requested : Bool) (code_page : Nat) (st : PublishState)
    (h : st.is_vfile_registered = false ∨ code_page = st.vfile_code_page) :
    AUTOEXEC_NotifyNewCodePage transcode shutdown_requested code_page st = st := by
  unfold AUTOEXEC_NotifyNewCodePage
  rcases h with h | h
  · simp [h]
  · by_cases hs : (shutdown_requested || !st.is_vfile_registered) = true
    · simp [hs]
    · simp [hs, h]

/-- Witness for claim C5's theorem at a concrete input: before any
publish, a notification leaves the initial publish state unchanged. -/
theorem notify_new_code_page_noop_witness :
    AUTOEXEC_NotifyNewCodePage (fun s _ => s.reverse) false 437
      { autoexec_bat_utf8 := ("X").toList,
        is_vfile_registered := false,
        vfile_code_page := 0,
        vfile_content := [] } =
      { autoexec_bat_utf8 := ("X").toList,
        is_vfile_registered := false,
        vfile_code_page := 0,
        vfile_content := [] } :=
  notify_new_code_page_noop (fun s _ => s.reverse) false 437 _ (Or.inl rfl)

/-- Claim C6: when a code-page-change notification arrives after a
publish (file registered, not shutting down) with a code page different
from the cached one, the new published bytes are the transcoder applied
to the stored, already-rendered UTF-8 blob — which itself is left
unchanged, no re-render occurs — and the cached code page becomes the new
one. -/
theorem notify_new_code_page_republish (transcode : Str → Nat → Str)
    (code_page : Nat) (st : PublishState)
    (hreg : st.is_vfile_registered = true)
    (hne : code_page ≠ st.vfile_code_page) :
    AUTOEXEC_NotifyNewCodePage transcode false code_page st =
      { autoexec_bat_utf8 := st.autoexec_bat_utf8,
        is_vfile_registered := true,
        vfile_code_page := code_page,
        vfile_content := transcode st.autoexec_bat_utf8 code_page } := by
  unfold AUTOEXEC_NotifyNewCodePage create_autoexec_bat_dos
  simp [hreg, hne]

/-- Witness for claim C6's theorem at a concrete input: republishing at
code page 850 reruns the (here: reversing) transcoder on the cached blob. -/
theorem notify_new_code_page_republish_witness :
    AUTOEXEC_NotifyNewCodePage (fun s _ => s.reverse) false 850
      { autoexec_bat_utf8 := ("AB").toList,
        is_vfile_registered := true,
        vfile_code_page := 437,
        vfile_content := ("AB").toList } =
      { autoexec_bat_utf8 := ("AB").toList,
        is_vfile_registered := true,
        vfile_code_page := 850,
        vfile_content := ("BA").toList } := by
  have h := notify_new_code_page_republish (fun s _ => s.reverse) 850
    { autoexec_bat_utf8 := ("AB").toList,
      is_vfile_registered := true,
      vfile_code_page := 437,
      vfile_content := ("AB").toList } rfl (by decide)
  simpa using h

/-- Claim C8: with the debug guard enabled, `AUTOEXEC_SetVariable` aborts
with a diagnostic exactly when the name or the value contains a character
outside printable ASCII; with the guard disabled (release builds) the same
inputs are accepted silently and stored via the ordinary update, with no
other failure mode. -/
theorem set_variable_printable_ascii_validation (c_debug : Bool)
    (vars : List (Str × Str)) (name value : Str) :
    (c_debug = false →
      AUTOEXEC_SetVariable_checked c_debug vars name value =
        .ok (AUTOEXEC_SetVariable vars name value)) ∧
    (c_debug = true → name.all is_printable_ascii = false →
      AUTOEXEC_SetVariable_checked c_debug vars name value =
        .error msg_name_not_printable) ∧
    (c_debug = true → name.all is_printable_ascii = true →
      value.all is_printable_ascii = false →
      AUTOEXEC_SetVariable_checked c_debug vars name value =
        .error msg_value_not_printable) ∧
    (c_debug = true → name.all is_printable_ascii = true →
      value.all is_printable_ascii = true →
      AUTOEXEC_SetVariable_checked c_debug vars name value =
        .ok (AUTOEXEC_SetVariable vars name value)) := by
  unfold AUTOEXEC_SetVariable_checked
  refine ⟨?_, ?_, ?_, ?_⟩
  · intro h
    subst h
    simp
  · intro h h1
    subst h
    simp [h1]
  · intro h h1 h2
    subst h
    simp [h1, h2]
  · intro h h1 h2
    subst h
    simp [h1, h2]

/-- Witness for claim C8's theorem at concrete inputs: a BEL character in
the name aborts in debug mode and is accepted in release mode. -/
theorem set_variable_printable_ascii_validation_witness :
    AUTOEXEC_SetVariable_checked true [] [Char.ofNat 7] (("X").toList) =
      .error msg_name_not_printable ∧
    AUTOEXEC_SetVariable_checked false [] [Char.ofNat 7] (("X").toList) =
      .ok (AUTOEXEC_SetVariable [] [Char.ofNat 7] (("X").toList)) :=
  ⟨(set_variable_printable_ascii_validation true [] [Char.ofNat 7]
      (("X").toList)).2.1 rfl (by decide),
   (set_variable_printable_ascii_validation false [] [Char.ofNat 7]
      (("X").toList)).1 rfl⟩

/-- Inserting a key places the pair `(k, v)` into the map. -/
theorem mem_mapInsert_self (k v : Str) (m : List (Str × Str)) :
    (k, v) ∈ mapInsert k v m := by
  induction m with
  | nil => simp [mapInsert]
  | cons p rest ih =>
    obtain ⟨k', v'⟩ := p
    unfold mapInsert
    by_cases h1 : k < k'
    · simp [h1]
    · by_cases h2 : k = k'
      · simp [h1, h2]
      · simp [h1, h2, ih]

/-- Erasing a key that was absent before it was inserted undoes the
insertion exactly. -/
theorem mapErase_mapInsert_of_not_mem (k v : Str) (m : List (Str × Str))
    (h : ∀ p ∈ m, p.1 ≠ k) : mapErase k (mapInsert k v m) = m := by
  induction m with
  | nil => simp [mapInsert, mapErase]
  | cons p rest ih =>
    obtain ⟨k', v'⟩ := p
    have hk' : k' ≠ k := h (k', v') (by simp)
    have hrest : ∀ p ∈ rest, p.1 ≠ k := fun p hp => h p (by simp [hp])
    unfold mapInsert
    by_cases h1 : k < k'
    · simp [h1, mapErase]
    · by_cases h2 : k = k'
      · exact absurd h2.symm hk'
      · simp only [h1, if_false, h2]
        unfold mapErase
        simp [Ne.symm hk', ih hrest]

/-- Counterexample to claim C4 as stated: if the uppercased name is
already present, setting it to a non-empty value and then to the empty
value does not restore the previous mapping — the old entry is lost. -/
theorem set_variable_remove_not_restoring :
    AUTOEXEC_SetVariable
      (AUTOEXEC_SetVariable [((("A").toList), (("1").toList))]
        (("a").toList) (("2").toList))
      (("a").toList) [] ≠ [((("A").toList), (("1").toList))] := by decide

/-- Claim C4 (amended): `SetVariable` stores under the uppercased name —
after a non-empty assignment the pair `(upcase name, value)` is in the
mapping — and, provided the uppercased name was not present before, a
non-empty assignment followed by an empty assignment restores the mapping
exactly (in particular, a mapping that started empty ends empty). -/
theorem set_variable_upcases_and_empty_value_removes
    (vars : List (Str × Str)) (name value : Str) (hv : value ≠ [])
    (habsent : ∀ p ∈ vars, p.1 ≠ upcaseStr name) :
    (upcaseStr name, value) ∈ AUTOEXEC_SetVariable vars name value ∧
    AUTOEXEC_SetVariable (AUTOEXEC_SetVariable vars name value) name [] =
      vars := by
  have hv' : value.isEmpty = false := by
    cases value with
    | nil => exact absurd rfl hv
    | cons c cs => rfl
  constructor
  · unfold AUTOEXEC_SetVariable
    simp only [hv', Bool.false_eq_true, if_false]
    exact mem_mapInsert_self _ _ _
  · unfold AUTOEXEC_SetVariable
    simp only [hv', Bool.false_eq_true, if_false, List.isEmpty_nil, if_true]
    exact mapErase_mapInsert_of_not_mem _ _ _ habsent

/-- Witness for claim C4's amended theorem at concrete inputs: setting
`path` to `C:\X` and then to the empty value leaves an initially empty
mapping empty (and the intermediate entry is stored under `PATH`). -/
theorem set_variable_upcases_and_empty_value_removes_witness :
    ((upcaseStr (("path").toList), (("C:\\X").toList)) ∈
      AUTOEXEC_SetVariable [] (("path").toList) (("C:\\X").toList)) ∧
    AUTOEXEC_SetVariable
      (AUTOEXEC_SetVariable [] (("path").toList) (("C:\\X").toList))
      (("path").toList) [] = [] :=
  set_variable_upcases_and_empty_value_removes [] (("path").toList)
    (("C:\\X").toList) (by decide) (by simp)

/-- Processing one buffer only ever appends: the previously emitted lines
stay as a prefix, followed by any banner lines and then the buffer's own
lines. -/
theorem render_section_out_split (acc : RenderAcc) (source : Location)
    (ls : List Str) :
    ∃ e, (render_section acc source ls).out = acc.out ++ e ++ ls := by
  unfold render_section
  by_cases h : ls.isEmpty
  · rw [List.isEmpty_iff] at h
    subst h
    simp
  · simp only [Bool.not_eq_true] at h
    simp only [h, Bool.false_eq_true, if_false]
    cases source with
    | GeneratedBeforeAutoexec | GeneratedAfterAutoexec =>
      by_cases hg : acc.prints_generated
      · exact ⟨[], by simp [hg]⟩
      · exact ⟨(if acc.out.isEmpty then [] else [[]]) ++ [comment_generated, []],
          by simp [hg]⟩
    | ConfigFileAutoexec =>
      by_cases hg : acc.prints_config_section
      · exact ⟨[], by simp [hg]⟩
      · exact ⟨(if acc.out.isEmpty then [] else [[]]) ++
            [comment_config_section, []],
          by simp [hg]⟩

/-- The rendered lines are the header block followed by material the
three-buffer loop appends. -/
theorem render_lines_header_split (st : AutoexecState) :
    ∃ t, render_lines st = header_lines st ++ t := by
  obtain ⟨e1, h1⟩ := render_section_out_split
    { out := header_lines st,
      prints_generated :=
        st.autoexec_has_echo_off || !st.autoexec_variables.isEmpty,
      prints_config_section := false }
    .GeneratedBeforeAutoexec st.linesGeneratedBefore
  obtain ⟨e2, h2⟩ := render_section_out_split _ .ConfigFileAutoexec
    st.linesConfigFile
  obtain ⟨e3, h3⟩ := render_section_out_split _ .GeneratedAfterAutoexec
    st.linesGeneratedAfter
  refine ⟨e1 ++ st.linesGeneratedBefore ++ e2 ++ st.linesConfigFile ++
    e3 ++ st.linesGeneratedAfter, ?_⟩
  unfold render_lines
  rw [h3, h2, h1]
  simp

/-- Counterexample to claim C2 as stated: with echo-off unset and one
variable `A=B`, the render has exactly one blank line between the banner
and the first `@SET` line, not the two consecutive blank lines the claim
derives from spec steps 1 and 3. -/
theorem render_vars_single_blank_line :
    render_lines
      { autoexec_has_echo_off := false,
        autoexec_variables := [((("A").toList), (("B").toList))],
        linesGeneratedBefore := [],
        linesConfigFile := [],
        linesGeneratedAfter := [] } =
      [comment_generated, [], ("@SET A=B").toList, []] ∧
    render_lines
      { autoexec_has_echo_off := false,
        autoexec_variables := [((("A").toList), (("B").toList))],
        linesGeneratedBefore := [],
        linesConfigFile := [],
        linesGeneratedAfter := [] } ≠
      [comment_generated, [], [], ("@SET A=B").toList, []] := by
  exact ⟨by decide, by decide⟩

/-- Claim C2 (amended): when the echo-off flag is unset and the variable
mapping is non-empty, the render starts with the generated banner line,
then a single blank line, then one `@SET NAME=VALUE` line per variable in
the mapping's stored order, then a blank line — one blank line, not two,
separates the banner from the first `@SET` line. -/
theorem render_vars_header_block (st : AutoexecState)
    (hecho : st.autoexec_has_echo_off = false)
    (hvars : st.autoexec_variables ≠ []) :
    (render_lines st).take (st.autoexec_variables.length + 3) =
      [comment_generated, []] ++ st.autoexec_variables.map set_line ++ [[]] := by
  obtain ⟨t, ht⟩ := render_lines_header_split st
  have hv' : st.autoexec_variables.isEmpty = false := by
    cases h : st.autoexec_variables with
    | nil => exact absurd h hvars
    | cons p rest => rfl
  have hheader : header_lines st =
      [comment_generated, []] ++ st.autoexec_variables.map set_line ++ [[]] := by
    unfold header_lines
    rw [hecho, hv']
    simp
  have hlen : ([comment_generated, []] ++ st.autoexec_variables.map set_line ++
      [[]]).length = st.autoexec_variables.length + 3 := by
    simp
  rw [ht, hheader, ← hlen, List.take_left]

/-- Witness for claim C2's amended theorem at a concrete input: one
variable `A=B` yields banner, one blank, `@SET A=B`, blank as the leading
block. -/
theorem render_vars_header_block_witness :
    (render_lines
      { autoexec_has_echo_off := false,
        autoexec_variables := [((("A").toList), (("B").toList))],
        linesGeneratedBefore := [(("@C:").toList)],
        linesConfigFile := [],
        linesGeneratedAfter := [] }).take 4 =
      [comment_generated, []] ++
        [((("A").toList), (("B").toList))].map set_line ++ [[]] :=
  render_vars_header_block
    { autoexec_has_echo_off := false,
      autoexec_variables := [((("A").toList), (("B").toList))],
      linesGeneratedBefore := [(("@C:").toList)],
      linesConfigFile := [],
      linesGeneratedAfter := [] } rfl (by decide)

/-- Applying an interleaved sequence of insertion calls appends each
call's line to the buffer of its own category, in call order, and touches
nothing else. -/
theorem applyCalls_buffers (calls : List AddCall) (st : AutoexecState) :
    (applyCalls st calls).linesGeneratedBefore =
      st.linesGeneratedBefore ++ callsBefore calls ∧
    (applyCalls st calls).linesConfigFile =
      st.linesConfigFile ++ callsUser calls ∧
    (applyCalls st calls).linesGeneratedAfter =
      st.linesGeneratedAfter ++ callsAfter calls ∧
    (applyCalls st calls).autoexec_has_echo_off = st.autoexec_has_echo_off ∧
    (applyCalls st calls).autoexec_variables = st.autoexec_variables := by
  induction calls generalizing st with
  | nil => simp [applyCalls, callsBefore, callsUser, callsAfter]
  | cons c cs ih =>
    have step : applyCalls st (c :: cs) = applyCalls (applyCall st c) cs := rfl
    cases c <;>
      simp [step, callsBefore, callsUser, callsAfter, applyCall,
        AddCommandBefore, AddAutoExecLine, AddCommandAfter, ih]

/-- Claim C1: for every interleaved sequence of `AddCommandBefore` /
`AddAutoExecLine` / `AddCommandAfter` calls, each buffer collects exactly
its own category's lines in call order, and the rendered output emits all
`GeneratedBeforeAutoexec` lines, then all `ConfigFileAutoexec` lines, then
all `GeneratedAfterAutoexec` lines — each contiguous block in insertion
order — regardless of how the calls were interleaved. -/
theorem render_origin_order (calls : List AddCall) (st : AutoexecState) :
    (applyCalls st calls).linesGeneratedBefore =
      st.linesGeneratedBefore ++ callsBefore calls ∧
    (applyCalls st calls).linesConfigFile =
      st.linesConfigFile ++ callsUser calls ∧
    (applyCalls st calls).linesGeneratedAfter =
      st.linesGeneratedAfter ++ callsAfter calls ∧
    ∃ a b c : List Str,
      render_lines (applyCalls st calls) =
        a ++ (st.linesGeneratedBefore ++ callsBefore calls) ++
        b ++ (st.linesConfigFile ++ callsUser calls) ++
        c ++ (st.linesGeneratedAfter ++ callsAfter calls) := by
  obtain ⟨hb, hu, ha, -, -⟩ := applyCalls_buffers calls st
  refine ⟨hb, hu, ha, ?_⟩
  set st' := applyCalls st calls with hst'
  obtain ⟨e1, h1⟩ := render_section_out_split
    { out := header_lines st',
      prints_generated :=
        st'.autoexec_has_echo_off || !st'.autoexec_variables.isEmpty,
      prints_config_section := false }
    .GeneratedBeforeAutoexec st'.linesGeneratedBefore
  obtain ⟨e2, h2⟩ := render_section_out_split _ .ConfigFileAutoexec
    st'.linesConfigFile
  obtain ⟨e3, h3⟩ := render_section_out_split _ .GeneratedAfterAutoexec
    st'.linesGeneratedAfter
  refine ⟨header_lines st' ++ e1, e2, e3, ?_⟩
  rw [← hb, ← hu, ← ha]
  unfold render_lines
  rw [h3, h2, h1]

/-- Structural facts about a string of the shape `echo` ++ mid ++ `off`:
its length, its 4-character head, its 3-character tail, and the slice
`check_echo_off` extracts between them. -/
theorem echo_parts (mid : List Char) :
    (['e','c','h','o'] ++ mid ++ ['o','f','f']).length = mid.length + 7 ∧
    (['e','c','h','o'] ++ mid ++ ['o','f','f']).take 4 = ['e','c','h','o'] ∧
    List.drop ((['e','c','h','o'] ++ mid ++ ['o','f','f']).length - 3)
      (['e','c','h','o'] ++ mid ++ ['o','f','f']) = ['o','f','f'] ∧
    ((['e','c','h','o'] ++ mid ++ ['o','f','f']).drop 4).take
      ((['e','c','h','o'] ++ mid ++ ['o','f','f']).length - 7) = mid := by
  have hlen : (['e','c','h','o'] ++ mid ++ ['o','f','f']).length = mid.length + 7 := by
    simp
  have hlen4 : ((['e','c','h','o'] : List Char) ++ mid).length = mid.length + 4 := by
    simp
  refine ⟨hlen, ?_, ?_, ?_⟩
  · simp
  · rw [hlen, show mid.length + 7 - 3 = mid.length + 4 from by omega, ← hlen4,
      List.drop_left]
  · rw [hlen]
    have hdrop4 : ((['e','c','h','o'] : List Char) ++ mid ++ ['o','f','f']).drop 4 =
        mid ++ ['o','f','f'] := by simp
    rw [hdrop4, show mid.length + 7 - 7 = mid.length from by omega, List.take_left]

/-- In a string of length at least 8 whose 4-character head is `echo` and
whose 3-character tail is `off`, the slice `check_echo_off` inspects is
non-empty and the whole string decomposes as `echo` ++ slice ++ `off`. -/
theorem echo_decomp (tmp : List Char) (h8 : 8 ≤ tmp.length)
    (htake : tmp.take 4 = ['e','c','h','o'])
    (hdrop : tmp.drop (tmp.length - 3) = ['o','f','f']) :
    tmp = ['e','c','h','o'] ++ (tmp.drop 4).take (tmp.length - 7) ++ ['o','f','f'] ∧
    (tmp.drop 4).take (tmp.length - 7) ≠ [] := by
  constructor
  · conv_lhs => rw [← List.take_append_drop 4 tmp]
    rw [htake, List.append_assoc]
    congr 1
    conv_lhs => rw [← List.take_append_drop (tmp.length - 7) (tmp.drop 4)]
    congr 1
    rw [List.drop_drop, show 4 + (tmp.length - 7) = tmp.length - 3 from by omega]
    exact hdrop
  · intro hnil
    have hl := congrArg List.length hnil
    simp [List.length_take, List.length_drop] at hl
    omega

/-- The source's `check_echo_off` agrees with the spec's wording of the
pattern: optional leading `@`, case-insensitive `echo`, at least one
whitespace character (arbitrary interior whitespace), then `off` with no
other trailing characters. -/
theorem check_echo_off_iff (line : Str) :
    check_echo_off line = true ↔ echo_off_spec line := by
  have hE : ("echo").toList = ['e', 'c', 'h', 'o'] := by decide
  have hO : ("off").toList = ['o', 'f', 'f'] := by decide
  constructor
  · intro h
    unfold check_echo_off at h
    by_cases hemp : line.isEmpty
    · simp [hemp] at h
    · simp only [Bool.not_eq_true] at hemp
      simp [hemp] at h
      set tmp := if line.head? = some '@' then line.tail else line with htmp
      obtain ⟨h8, htake, hends, hsp⟩ := h
      unfold ends_with at hends
      have hdrop := of_decide_eq_true hends
      have hdrop2 : (tmp.map toLowerC).drop ((tmp.map toLowerC).length - 3) =
          ['o', 'f', 'f'] := by simpa using hdrop
      have h82 : 8 ≤ (tmp.map toLowerC).length := by simpa using h8
      obtain ⟨hdec, hne⟩ := echo_decomp (tmp.map toLowerC) h82 htake hdrop2
      simp only [List.length_map] at hdec hne
      refine ⟨(List.drop 4 (tmp.map toLowerC)).take (tmp.length - 7), hne,
        hsp, ?_⟩
      rw [hE, hO]
      by_cases hat : line.head? = some '@'
      · right
        obtain ⟨c, t, hct⟩ : ∃ c t, line = c :: t := by
          cases line with
          | nil => simp at hemp
          | cons c t => exact ⟨c, t, rfl⟩
        have hc : c = '@' := by
          rw [hct] at hat
          simpa using hat
        have htmpt : tmp = t := by
          rw [htmp, if_pos hat, hct]
          rfl
        refine ⟨t, by rw [hct, hc], ?_⟩
        rw [← htmpt]
        exact hdec
      · left
        have htmpl : tmp = line := by rw [htmp, if_neg hat]
        rw [← htmpl]
        exact hdec
  · rintro ⟨mid, hmid, hsp, hcase⟩
    have hmidlen : 1 ≤ mid.length := by
      cases mid with
      | nil => exact absurd rfl hmid
      | cons c t => simp
    obtain ⟨hplen, hptake, hpdrop, hpmid⟩ := echo_parts mid
    have hew : ∀ u : Str, u.map toLowerC = ['e','c','h','o'] ++ mid ++ ['o','f','f'] →
        ends_with (u.map toLowerC) (("off").toList) = true := by
      intro u hmap
      unfold ends_with
      apply decide_eq_true
      rw [hO, hmap]
      simp only [List.length_cons, List.length_nil]
      simp only [show (0 : Nat) + 1 + 1 + 1 = 3 from rfl]
      exact hpdrop
    rcases hcase with hmap | ⟨body, hbody, hmap⟩
    · rw [hE, hO] at hmap
      obtain ⟨c, t, hct⟩ : ∃ c t, line = c :: t := by
        cases line with
        | nil =>
          rw [List.map_nil] at hmap
          exact absurd (congrArg List.length hmap) (by simp)
        | cons c t => exact ⟨c, t, rfl⟩
      have hc : toLowerC c = 'e' := by
        rw [hct] at hmap
        simpa using congrArg List.head? hmap
      have hcne : ¬ (line.head? = some '@') := by
        rw [hct]
        simp only [List.head?_cons, Option.some.injEq]
        intro hcat
        rw [hcat] at hc
        exact absurd hc (by decide)
      have hlinelen : line.length = mid.length + 7 := by
        have hh := congrArg List.length hmap
        rwa [List.length_map, hplen] at hh
      have htk : (line.map toLowerC).take 4 = ("echo").toList := by
        rw [hE, hmap]
        exact hptake
      have hmidx : ((line.map toLowerC).drop 4).take ((line.map toLowerC).length - 7) =
          mid := by
        rw [hmap]
        exact hpmid
      have hemp2 : line.isEmpty = false := by rw [hct]; rfl
      unfold check_echo_off
      simp only [hemp2, Bool.false_eq_true, if_false, if_neg hcne]
      rw [if_neg (show ¬ line.length < 8 from by omega)]
      simp only [htk, not_true, Bool.false_eq_true, if_false,
        hew line hmap, hmidx]
      exact List.all_eq_true.mpr hsp
    · rw [hE, hO] at hmap
      have hbodylen : body.length = mid.length + 7 := by
        have hh := congrArg List.length hmap
        rwa [List.length_map, hplen] at hh
      have hat : line.head? = some '@' := by rw [hbody]; rfl
      have hdrop1 : line.drop 1 = body := by rw [hbody]; rfl
      have htk : (body.map toLowerC).take 4 = ("echo").toList := by
        rw [hE, hmap]
        exact hptake
      have hmidx : ((body.map toLowerC).drop 4).take ((body.map toLowerC).length - 7) =
          mid := by
        rw [hmap]
        exact hpmid
      have hemp2 : line.isEmpty = false := by rw [hbody]; rfl
      unfold check_echo_off
      simp only [hemp2, Bool.false_eq_true, if_false, if_pos hat, hdrop1]
      rw [if_neg (show ¬ body.length < 8 from by omega)]
      simp only [htk, not_true, Bool.false_eq_true, if_false,
        hew body hmap, hmidx]
      exact List.all_eq_true.mpr hsp

/-- Claim C3: `ProcessConfigFile` trims each line and checks only the
first line against the echo-off pattern (optional leading `@`,
case-insensitive `echo`, at least one whitespace character, then `off`
with nothing trailing); a matching first line is consumed and sets the
echo-off flag, every other line is added as user content, and a matching
pattern on any later line is added as ordinary content.  In particular
`"@echo off\nDIR\n"` sets echo-off with the single user line `DIR`,
while `"echo offX\nDIR\n"` leaves echo-off unset with the two user
lines `echo offX` and `DIR`. -/
theorem process_config_file_echo_off :
    (∀ line : Str, check_echo_off line = true ↔ echo_off_spec line) ∧
    ProcessConfigFile
      { autoexec_has_echo_off := false,
        autoexec_variables := [],
        linesGeneratedBefore := [],
        linesConfigFile := [],
        linesGeneratedAfter := [] } (("@echo off\nDIR\n").toList) =
      { autoexec_has_echo_off := true,
        autoexec_variables := [],
        linesGeneratedBefore := [],
        linesConfigFile := [("DIR").toList],
        linesGeneratedAfter := [] } ∧
    ProcessConfigFile
      { autoexec_has_echo_off := false,
        autoexec_variables := [],
        linesGeneratedBefore := [],
        linesConfigFile := [],
        linesGeneratedAfter := [] } (("echo offX\nDIR\n").toList) =
      { autoexec_has_echo_off := false,
        autoexec_variables := [],
        linesGeneratedBefore := [],
        linesConfigFile := [("echo offX").toList, ("DIR").toList],
        linesGeneratedAfter := [] } ∧
    ProcessConfigFile
      { autoexec_has_echo_off := false,
        autoexec_variables := [],
        linesGeneratedBefore := [],
        linesConfigFile := [],
        linesGeneratedAfter := [] } (("DIR\n@echo off\n").toList) =
      { autoexec_has_echo_off := false,
        autoexec_variables := [],
        linesGeneratedBefore := [],
        linesConfigFile := [("DIR").toList, ("@echo off").toList],
        linesGeneratedAfter := [] } ∧
    ProcessConfigFile
      { autoexec_has_echo_off := false,
        autoexec_variables := [],
        linesGeneratedBefore := [],
        linesConfigFile := [],
        linesGeneratedAfter := [] } (("  @ECHO  Off  \n  DIR  \n").toList) =
      { autoexec_has_echo_off := true,
        autoexec_variables := [],
        linesGeneratedBefore := [],
        linesConfigFile := [("DIR").toList],
        linesGeneratedAfter := [] } :=
  ⟨check_echo_off_iff, by decide, by decide, by decide, by decide⟩

/-- one unfolding step of mapFind -/
theorem mapFind_cons (k k' v' : Str) (rest : List (Str × Str)) :
    mapFind k ((k', v') :: rest) =
      if k = k' then some v' else mapFind k rest := rfl

/-- membership in an insertion result -/
theorem mem_mapInsert (k v : Str) (m : List (Str × Str)) (x : Str × Str)
    (hx : x ∈ mapInsert k v m) : x = (k, v) ∨ x ∈ m := by
  induction m with
  | nil => simpa [mapInsert] using hx
  | cons p rest ih =>
    obtain ⟨k', v'⟩ := p
    unfold mapInsert at hx
    by_cases h1 : k < k'
    · simp only [if_pos h1, List.mem_cons] at hx
      rcases hx with h | h
      · exact Or.inl h
      · exact Or.inr (List.mem_cons.mpr h)
    · by_cases h2 : k = k'
      · simp only [if_neg h1, if_pos h2, List.mem_cons] at hx
        rcases hx with h | h
        · exact Or.inl h
        · exact Or.inr (List.mem_cons_of_mem _ h)
      · simp only [if_neg h1, if_neg h2, List.mem_cons] at hx
        rcases hx with h | h
        · exact Or.inr (by simp [h])
        · rcases ih h with h' | h'
          · exact Or.inl h'
          · exact Or.inr (List.mem_cons_of_mem _ h')

/-- insertion preserves sortedness -/
theorem varsSorted_mapInsert (k v : Str) (m : List (Str × Str))
    (hs : VarsSorted m) : VarsSorted (mapInsert k v m) := by
  induction m with
  | nil => simp [mapInsert, VarsSorted]
  | cons p rest ih =>
    obtain ⟨k', v'⟩ := p
    rw [VarsSorted, List.pairwise_cons] at hs
    obtain ⟨hhead, hrest⟩ := hs
    unfold mapInsert
    by_cases h1 : k < k'
    · rw [if_pos h1]
      rw [VarsSorted, List.pairwise_cons]
      refine ⟨?_, ?_⟩
      · intro y hy
        rcases List.mem_cons.mp hy with h | h
        · rw [h]
          exact h1
        · exact lt_trans h1 (hhead y h)
      · rw [List.pairwise_cons]
        exact ⟨hhead, hrest⟩
    · by_cases h2 : k = k'
      · rw [if_neg h1, if_pos h2]
        rw [VarsSorted, List.pairwise_cons]
        subst h2
        exact ⟨hhead, hrest⟩
      · rw [if_neg h1, if_neg h2]
        rw [VarsSorted, List.pairwise_cons]
        have hk'k : k' < k := by
          rcases lt_trichotomy k k' with h | h | h
          · exact absurd h h1
          · exact absurd h h2
          · exact h
        refine ⟨?_, ih hrest⟩
        intro y hy
        rcases mem_mapInsert k v rest y hy with h | h
        · rw [h]
          exact hk'k
        · exact hhead y h

/-- erasure yields a sublist -/
theorem mapErase_sublist (k : Str) (m : List (Str × Str)) :
    (mapErase k m).Sublist m := by
  induction m with
  | nil => simp [mapErase]
  | cons p rest ih =>
    obtain ⟨k', v'⟩ := p
    unfold mapErase
    by_cases h : k = k'
    · rw [if_pos h]
      exact List.sublist_cons_self _ _
    · rw [if_neg h]
      exact List.Sublist.cons₂ _ ih

/-- erasure preserves sortedness -/
theorem varsSorted_mapErase (k : Str) (m : List (Str × Str))
    (hs : VarsSorted m) : VarsSorted (mapErase k m) :=
  List.Pairwise.sublist (mapErase_sublist k m) hs

/-- SetVariable preserves sortedness -/
theorem varsSorted_setVariable (m : List (Str × Str)) (name value : Str)
    (hs : VarsSorted m) : VarsSorted (AUTOEXEC_SetVariable m name value) := by
  unfold AUTOEXEC_SetVariable
  by_cases h : value.isEmpty
  · rw [if_pos h]
    exact varsSorted_mapErase _ _ hs
  · rw [if_neg h]
    exact varsSorted_mapInsert _ _ _ hs

/-- any sequence of SetVariable calls keeps the map sorted -/
theorem varsSorted_applySetVars (ops : List (Str × Str))
    (m : List (Str × Str)) (hs : VarsSorted m) :
    VarsSorted (applySetVars m ops) := by
  induction ops generalizing m with
  | nil => exact hs
  | cons p rest ih =>
    exact ih _ (varsSorted_setVariable m p.1 p.2 hs)

/-- a key absent from the list is not found -/
theorem mapFind_eq_none (k : Str) (m : List (Str × Str))
    (h : ∀ p ∈ m, p.1 ≠ k) : mapFind k m = none := by
  induction m with
  | nil => rfl
  | cons p rest ih =>
    obtain ⟨k', v'⟩ := p
    unfold mapFind
    rw [if_neg (fun he => h (k', v') (by simp) (by simp [he.symm]))]
    exact ih fun p hp => h p (List.mem_cons_of_mem _ hp)

/-- a found key is a member -/
theorem mapFind_mem (k : Str) (m : List (Str × Str)) (v : Str)
    (h : mapFind k m = some v) : (k, v) ∈ m := by
  induction m with
  | nil => simp [mapFind] at h
  | cons p rest ih =>
    obtain ⟨k', v'⟩ := p
    unfold mapFind at h
    by_cases he : k = k'
    · rw [if_pos he] at h
      have hv := (Option.some.injEq _ _).mp h
      simp [he, hv]
    · rw [if_neg he] at h
      exact List.mem_cons_of_mem _ (ih h)

/-- find after insert -/
theorem mapFind_mapInsert (k q v : Str) (m : List (Str × Str)) :
    mapFind k (mapInsert q v m) = if k = q then some v else mapFind k m := by
  induction m with
  | nil =>
    unfold mapInsert mapFind
    by_cases h : k = q
    · rw [if_pos h, if_pos h]
    · rw [if_neg h, if_neg h]
      rfl
  | cons p rest ih =>
    obtain ⟨k', v'⟩ := p
    unfold mapInsert
    by_cases h1 : q < k'
    · rw [if_pos h1, mapFind_cons]
    · by_cases h2 : q = k'
      · rw [if_neg h1, if_pos h2, mapFind_cons, mapFind_cons]
        by_cases h : k = q
        · simp only [if_pos h, if_pos (h.trans h2)]
        · simp only [if_neg h, if_neg (fun he : k = k' => h (he.trans h2.symm))]
      · rw [if_neg h1, if_neg h2, mapFind_cons, mapFind_cons, ih]
        by_cases h : k = k'
        · simp only [if_pos h, if_neg (fun he : k = q => h2 (he.symm.trans h))]
        · simp only [if_neg h]

/-- find after erase, on a sorted map -/
theorem mapFind_mapErase (k q : Str) (m : List (Str × Str))
    (hs : VarsSorted m) :
    mapFind k (mapErase q m) = if k = q then none else mapFind k m := by
  induction m with
  | nil =>
    unfold mapErase mapFind
    by_cases h : k = q
    · rw [if_pos h]
    · rw [if_neg h]
  | cons p rest ih =>
    obtain ⟨k', v'⟩ := p
    rw [VarsSorted, List.pairwise_cons] at hs
    obtain ⟨hhead, hrest⟩ := hs
    unfold mapErase
    by_cases h1 : q = k'
    · rw [if_pos h1]
      by_cases h : k = q
      · rw [if_pos h]
        exact mapFind_eq_none _ _ fun p hp =>
          ne_of_gt (h ▸ h1 ▸ hhead p hp)
      · rw [if_neg h, mapFind_cons,
          if_neg (fun he : k = k' => h (he.trans h1.symm))]
    · rw [if_neg h1, mapFind_cons, mapFind_cons, ih hrest]
      by_cases h : k = k'
      · simp only [if_pos h, if_neg (fun he : k = q => h1 (he.symm.trans h))]
      · simp only [if_neg h]

/-- sorted maps with the same lookup function are equal -/
theorem varsSorted_ext (l l' : List (Str × Str)) (hs : VarsSorted l)
    (hs' : VarsSorted l') (h : ∀ k, mapFind k l = mapFind k l') : l = l' := by
  induction l generalizing l' with
  | nil =>
    cases l' with
    | nil => rfl
    | cons b u =>
      obtain ⟨kb, vb⟩ := b
      have hb := h kb
      unfold mapFind at hb
      rw [if_pos rfl] at hb
      simp at hb
  | cons a t ih =>
    obtain ⟨ka, va⟩ := a
    rw [VarsSorted, List.pairwise_cons] at hs
    obtain ⟨hhead, hrest⟩ := hs
    cases l' with
    | nil =>
      have ha := h ka
      unfold mapFind at ha
      rw [if_pos rfl] at ha
      simp at ha
    | cons b u =>
      obtain ⟨kb, vb⟩ := b
      rw [VarsSorted, List.pairwise_cons] at hs'
      obtain ⟨hhead', hrest'⟩ := hs'
      have hkey : ka = kb := by
        by_contra hne
        have ha := h ka
        have hb := h kb
        unfold mapFind at ha hb
        rw [if_pos rfl, if_neg hne] at ha
        rw [if_neg (fun he => hne he.symm), if_pos rfl] at hb
        have h1 : kb < ka := hhead' _ (mapFind_mem ka u va ha.symm)
        have h2 : ka < kb := hhead _ (mapFind_mem kb t vb hb)
        exact absurd (lt_trans h1 h2) (lt_irrefl _)
      have hval : va = vb := by
        have ha := h ka
        unfold mapFind at ha
        rw [if_pos rfl, if_pos hkey] at ha
        exact (Option.some.injEq _ _).mp ha
      subst hkey
      subst hval
      congr 1
      apply ih u hrest hrest'
      intro k
      by_cases hk : k = ka
      · rw [hk,
          mapFind_eq_none ka t (fun p hp => ne_of_gt (hhead p hp)),
          mapFind_eq_none ka u (fun p hp => ne_of_gt (hhead' p hp))]
      · have hh := h k
        unfold mapFind at hh
        rwa [if_neg hk, if_neg hk] at hh

/-- SetVariable calls with distinct uppercased names commute on a sorted
map. -/
theorem set_variable_comm_general (m : List (Str × Str)) (n₁ v₁ n₂ v₂ : Str)
    (hs : VarsSorted m) (hne : upcaseStr n₁ ≠ upcaseStr n₂) :
    AUTOEXEC_SetVariable (AUTOEXEC_SetVariable m n₁ v₁) n₂ v₂ =
      AUTOEXEC_SetVariable (AUTOEXEC_SetVariable m n₂ v₂) n₁ v₁ := by
  have hs1 := varsSorted_setVariable m n₁ v₁ hs
  have hs2 := varsSorted_setVariable m n₂ v₂ hs
  apply varsSorted_ext _ _ (varsSorted_setVariable _ n₂ v₂ hs1)
    (varsSorted_setVariable _ n₁ v₁ hs2)
  intro k
  unfold AUTOEXEC_SetVariable at hs1 hs2 ⊢
  by_cases h1 : v₁.isEmpty <;> by_cases h2 : v₂.isEmpty <;>
    simp only [h1, h2, if_true, if_false, Bool.false_eq_true] at hs1 hs2 ⊢
  · rw [mapFind_mapErase _ _ _ hs1, mapFind_mapErase _ _ _ hs,
      mapFind_mapErase _ _ _ hs2, mapFind_mapErase _ _ _ hs]
    by_cases hk1 : k = upcaseStr n₁ <;> by_cases hk2 : k = upcaseStr n₂ <;>
      simp [hk1, hk2]
  · rw [mapFind_mapInsert, mapFind_mapErase _ _ _ hs,
      mapFind_mapErase _ _ _ hs2, mapFind_mapInsert]
    by_cases hk1 : k = upcaseStr n₁
    · by_cases hk2 : k = upcaseStr n₂
      · exact absurd (hk1.symm.trans hk2) hne
      · simp [hk1, hk2, hne, Ne.symm hne]
    · by_cases hk2 : k = upcaseStr n₂ <;> simp [hk1, hk2, hne, Ne.symm hne]
  · rw [mapFind_mapErase _ _ _ hs1, mapFind_mapInsert,
      mapFind_mapInsert, mapFind_mapErase _ _ _ hs]
    by_cases hk1 : k = upcaseStr n₁
    · by_cases hk2 : k = upcaseStr n₂
      · exact absurd (hk1.symm.trans hk2) hne
      · simp [hk1, hk2, hne, Ne.symm hne]
    · by_cases hk2 : k = upcaseStr n₂ <;> simp [hk1, hk2, hne, Ne.symm hne]
  · rw [mapFind_mapInsert, mapFind_mapInsert,
      mapFind_mapInsert, mapFind_mapInsert]
    by_cases hk1 : k = upcaseStr n₁
    · by_cases hk2 : k = upcaseStr n₂
      · exact absurd (hk1.symm.trans hk2) hne
      · simp [hk1, hk2, hne, Ne.symm hne]
    · by_cases hk2 : k = upcaseStr n₂ <;> simp [hk1, hk2, hne, Ne.symm hne]

/-- Counterexample to claim C10 as stated: the distinct names `a` and `A`
normalize to the same key, so their SetVariable calls do not commute. -/
theorem set_variable_distinct_names_not_commuting :
    applySetVars [] [((("a").toList), (("1").toList)),
        ((("A").toList), (("2").toList))] ≠
      applySetVars [] [((("A").toList), (("2").toList)),
        ((("a").toList), (("1").toList))] ∧
    ("a").toList ≠ ("A").toList := by
  exact ⟨by decide, by decide⟩

/-- Claim C10 (amended): starting from the empty mapping, any sequence of
SetVariable calls leaves the stored keys — the uppercased names, which
the render turns into the `@SET` lines in stored order — in strictly
ascending lexicographic order; and two SetVariable calls whose uppercased
names are distinct commute on any sorted mapping, yielding the same
mapping and the same rendered output. -/
theorem set_variable_sorted_and_commutes (ops : List (Str × Str))
    (m : List (Str × Str)) (n₁ v₁ n₂ v₂ : Str)
    (hs : VarsSorted m) (hne : upcaseStr n₁ ≠ upcaseStr n₂) :
    VarsSorted (applySetVars [] ops) ∧
    AUTOEXEC_SetVariable (AUTOEXEC_SetVariable m n₁ v₁) n₂ v₂ =
      AUTOEXEC_SetVariable (AUTOEXEC_SetVariable m n₂ v₂) n₁ v₁ ∧
    create_autoexec_bat_utf8
      { autoexec_has_echo_off := false,
        autoexec_variables :=
          AUTOEXEC_SetVariable (AUTOEXEC_SetVariable m n₁ v₁) n₂ v₂,
        linesGeneratedBefore := [],
        linesConfigFile := [],
        linesGeneratedAfter := [] } =
      create_autoexec_bat_utf8
      { autoexec_has_echo_off := false,
        autoexec_variables :=
          AUTOEXEC_SetVariable (AUTOEXEC_SetVariable m n₂ v₂) n₁ v₁,
        linesGeneratedBefore := [],
        linesConfigFile := [],
        linesGeneratedAfter := [] } := by
  have hcomm := set_variable_comm_general m n₁ v₁ n₂ v₂ hs hne
  refine ⟨varsSorted_applySetVars ops [] List.Pairwise.nil, hcomm, ?_⟩
  rw [hcomm]

/-- Witness for claim C10's amended theorem at concrete inputs: `b=1`
then `a=2` equals `a=2` then `b=1`, the resulting keys are sorted, and
the rendered outputs agree. -/
theorem set_variable_sorted_and_commutes_witness :
    VarsSorted (applySetVars []
      [((("b").toList), (("1").toList)), ((("a").toList), (("2").toList))]) ∧
    AUTOEXEC_SetVariable
        (AUTOEXEC_SetVariable [] (("b").toList) (("1").toList))
        (("a").toList) (("2").toList) =
      AUTOEXEC_SetVariable
        (AUTOEXEC_SetVariable [] (("a").toList) (("2").toList))
        (("b").toList) (("1").toList) ∧
    create_autoexec_bat_utf8
      { autoexec_has_echo_off := false,
        autoexec_variables :=
          AUTOEXEC_SetVariable
            (AUTOEXEC_SetVariable [] (("b").toList) (("1").toList))
            (("a").toList) (("2").toList),
        linesGeneratedBefore := [],
        linesConfigFile := [],
        linesGeneratedAfter := [] } =
      create_autoexec_bat_utf8
      { autoexec_has_echo_off := false,
        autoexec_variables :=
          AUTOEXEC_SetVariable
            (AUTOEXEC_SetVariable [] (("a").toList) (("2").toList))
            (("b").toList) (("1").toList),
        linesGeneratedBefore := [],
        linesConfigFile := [],
        linesGeneratedAfter := [] } :=
  set_variable_sorted_and_commutes
    [((("b").toList), (("1").toList)), ((("a").toList), (("2").toList))]
    [] (("b").toList) (("1").toList) (("a").toList) (("2").toList)
    List.Pairwise.nil (by decide)

end Autoexec
